import Mathlib

/-!
Verification of the worktree-manager core: a shallow embedding of the
repository scanner, worktree lister/aggregator, preference path expansion
and the worktree mutation protocol, together with theorems settling the
frozen claims about them.

Conventions of the embedding:
* JavaScript string operations (`trim`, `split`, `startsWith`, `slice`,
  `replace`) are modelled by executable character-list functions below, so
  every concrete instance can be settled by `decide`.
* Node-style filesystem paths are strings; an absolute path is one that
  starts with `/`.  `path.resolve` / `path.join` / `path.dirname` /
  `path.basename` are modelled on normalized component lists.
* The filesystem is an immutable tree `FSNode` (files carry content, both
  files and directories carry an mtime used by `statSync(...).mtimeMs`).
* Subprocess invocations (`execFile`/`spawn` of `git`) are oracles supplied
  by a `GitEnv`; every mutation function additionally returns the list of
  issued git invocations (working directory and argument vector) so that
  claims about "which subprocesses ran" are stateable.
-/

namespace WorktreeManager

/-! ## JS string primitives (character-list based, kernel-computable) -/

/-- JS `String.prototype.trim` (ASCII whitespace model). -/
def jsTrim (s : String) : String :=
  ⟨((s.data.dropWhile Char.isWhitespace).reverse.dropWhile
      Char.isWhitespace).reverse⟩

/-- Model of `s.split(sep)` for a one-character separator; auxiliary accumulator. -/
def splitOnCharAux (c : Char) : List Char → List Char → List String
  | [], cur => [⟨cur.reverse⟩]
  | x :: xs, cur =>
    if x = c then ⟨cur.reverse⟩ :: splitOnCharAux c xs []
    else splitOnCharAux c xs (x :: cur)

/-- Model of `s.split(sep)` for a one-character separator. -/
def splitOnChar (c : Char) (s : String) : List String := splitOnCharAux c s.data []

/-- JS `s.startsWith(pre)`. -/
def startsWithStr (s pre : String) : Bool := pre.data.isPrefixOf s.data

/-- JS `s.slice(n)` (code-unit drop; ASCII model). -/
def strDrop (s : String) (n : Nat) : String := ⟨s.data.drop n⟩

/-- JS `s.replace(regex-of-single-chars, …)` character map. -/
def mapStr (f : Char → Char) (s : String) : String := ⟨s.data.map f⟩

/-- JS `s.includes(c)` for a single character. -/
def containsChar (s : String) (c : Char) : Bool := s.data.contains c

/-- Concatenation of a list of strings (for captured output chunks). -/
def joinStrs (l : List String) : String := ⟨(l.map String.data).flatten⟩

/-- Model of `Array.prototype.join(sep)` separator interleaving. -/
def intercalateStr (sep : String) (l : List String) : String :=
  ⟨List.intercalate sep.data (l.map String.data)⟩

/-! ## Node path model -/

/-- Model of `path.isAbsolute` for POSIX paths. -/
def isAbsolutePath (s : String) : Bool := startsWithStr s "/"

/-- Split a path string into its non-trivial components (drops empty
components produced by duplicate slashes and `.` components). -/
def splitComponents (s : String) : List String :=
  (splitOnChar '/' s).filter (fun c => c ≠ "" && c ≠ ".")

/-- One step of `..`-normalization: `..` pops the last component (clamped at
the root, as `path.resolve` does for absolute paths). -/
def normStep (acc : List String) (c : String) : List String :=
  if c = ".." then acc.dropLast else acc ++ [c]

/-- Normalize a component list by resolving `..` components. -/
def normalizeComps (cs : List String) : List String := cs.foldl normStep []

/-- Component list of `path.resolve(base, p)` (with `base` absolute). -/
def resolveComps (base p : String) : List String :=
  if isAbsolutePath p then normalizeComps (splitComponents p)
  else normalizeComps (splitComponents base ++ splitComponents p)

/-- Render an absolute path from its components. -/
def renderAbs (cs : List String) : String :=
  ⟨'/' :: List.intercalate ['/'] (cs.map String.data)⟩

/-- Model of `path.resolve(base, p)` for an absolute `base`. -/
def nodeResolve (base p : String) : String := renderAbs (resolveComps base p)

/-- Model of `path.dirname` for an absolute path. -/
def nodeDirname (s : String) : String :=
  renderAbs (normalizeComps (splitComponents s)).dropLast

/-- Model of `path.basename` for an absolute path. -/
def nodeBasename (s : String) : String :=
  ((normalizeComps (splitComponents s)).getLast?).getD ""

/-- Model of `path.join(a, b)`. -/
def nodeJoin (a b : String) : String :=
  let cs := normalizeComps (splitComponents a ++ splitComponents b)
  if isAbsolutePath a then renderAbs cs
  else if cs = [] then "." else intercalateStr "/" cs

/-! ## Filesystem model -/

/-- An immutable filesystem tree.  Files carry their textual content;
both files and directories carry a modification time (`mtimeMs`). -/
inductive FSNode where
  | file (content : String) (mtime : Int)
  | dir (entries : List (String × FSNode)) (mtime : Int)
deriving Repr

/-- Associative lookup of a directory entry by name. -/
def lookupEntry : List (String × FSNode) → String → Option FSNode
  | [], _ => none
  | (k, v) :: r, name => if k = name then some v else lookupEntry r name

/-- Look a node up by (normalized, absolute) component list. -/
def FSNode.find? (n : FSNode) : List String → Option FSNode
  | [] => some n
  | c :: cs =>
    match n with
    | FSNode.file _ _ => none
    | FSNode.dir es _ =>
      match lookupEntry es c with
      | some m => m.find? cs
      | none => none

/-- The node's `mtimeMs`. -/
def FSNode.mtimeOf : FSNode → Int
  | .file _ m => m
  | .dir _ m => m

/-- Model of `statSync(...).isDirectory()`. -/
def FSNode.isDirNode : FSNode → Bool
  | .dir _ _ => true
  | .file _ _ => false

/-- Look a path string up in the filesystem (relative paths resolve
against the process working directory `cwd`, as Node's `fs` does). -/
def findPath (fs : FSNode) (cwd p : String) : Option FSNode :=
  fs.find? (resolveComps cwd p)

/-- Model of `fs.existsSync`. -/
def existsPath (fs : FSNode) (cwd p : String) : Bool := (findPath fs cwd p).isSome

/-! ## Filesystem probe (`isGitRepo`, `getMainRepoPath`) -/

/-- Embedding of `isGitRepo`: `dir/.git` exists and is a directory, or is a
file whose content starts with `gitdir:`. -/
def isGitRepo (fs : FSNode) (cwd dirPath : String) : Bool :=
  match fs.find? (resolveComps cwd dirPath ++ [".git"]) with
  | some (FSNode.dir _ _) => true
  | some (FSNode.file content _) => startsWithStr content "gitdir:"
  | none => false

/-- Embedding of `getMainRepoPath`: follow a linked worktree's `.git` file
(`gitdir: <path>` line, resolved relative to the worktree when not absolute)
and any `commondir` indirection; the main repository root is the parent
directory of the resulting common git-dir.  `none` on any read/parse
failure. -/
def getMainRepoPath (fs : FSNode) (cwd worktreePath : String) : Option String :=
  let gitFileComps := resolveComps cwd worktreePath ++ [".git"]
  match fs.find? gitFileComps with
  | some (FSNode.file content _) =>
    -- content.trim().match(/^gitdir:\s*(.+)$/m): first line that starts with
    -- "gitdir:" and has at least one character after the colon
    match (splitOnChar '\n' (jsTrim content)).find?
        (fun l => startsWithStr l "gitdir:" && strDrop l 7 ≠ "") with
    | none => none
    | some line =>
      let gitDirRaw := jsTrim (strDrop line 7)
      let gitFileStr := renderAbs gitFileComps
      let gitDir :=
        if isAbsolutePath gitDirRaw then gitDirRaw
        else nodeResolve (nodeDirname gitFileStr) gitDirRaw
      let commondirPath := nodeJoin gitDir "commondir"
      match findPath fs cwd commondirPath with
      | some (FSNode.file common _) =>
        let commonT := jsTrim common
        let mainGitDir :=
          if isAbsolutePath commonT then commonT
          else nodeResolve (nodeDirname commondirPath) commonT
        some (nodeDirname mainGitDir)
      | some (FSNode.dir _ _) => none -- readFileSync on a directory throws
      | none => some (nodeDirname gitDir)
  | _ => none

/-! ## Repository scanner -/

def MAX_REPO_SCAN_DEPTH : Nat := 15

/-- The `RepoInfo` record: a discovered main repository root. -/
structure RepoInfo where
  path : String
deriving Repr, DecidableEq

/-- Scanner state: the `results` array and the `seenMainPaths` set. -/
structure ScanAcc where
  results : List RepoInfo
  seen : List String
deriving Repr, DecidableEq

/-- Embedding of `if (!seenMainPaths.has(p)) \x7b seenMainPaths.add(p); results.push(...) \x7d`. -/
def recordRepo (acc : ScanAcc) (p : String) : ScanAcc :=
  if p ∈ acc.seen then acc else ⟨acc.results ++ [⟨p⟩], p :: acc.seen⟩

/-- The `for (const ent of entries)` loop of `collectReposRecursive`:
descend into each subdirectory except one literally named `.git`. -/
def collectChildrenAux (step : FSNode → List String → ScanAcc → ScanAcc) :
    List (String × FSNode) → List String → ScanAcc → ScanAcc
  | [], _, acc => acc
  | (name, child) :: rest, comps, acc =>
    let acc' :=
      if child.isDirNode && name ≠ ".git" then step child (comps ++ [name]) acc
      else acc
    collectChildrenAux step rest comps acc'

/-- Embedding of `collectReposRecursive`.  The source passes an increasing
`depth` and returns as soon as `depth > MAX_REPO_SCAN_DEPTH`; here the same
bound is carried as the remaining budget `fuel = MAX_REPO_SCAN_DEPTH + 1 -
depth`, which reaches `0` exactly when the source's guard fires (this makes
the recursion structural).  At a directory that is itself a Git repository
the walk records it (resolving linked worktrees via `getMainRepoPath`) and
stops descending; otherwise it recurses into every subdirectory except
`.git`; files are never descended into. -/
def collectReposNode (fs : FSNode) (cwd : String) :
    Nat → FSNode → List String → ScanAcc → ScanAcc
  | 0, _, _, acc => acc
  | fuel + 1, node, comps, acc =>
    match node with
    | FSNode.file _ _ => acc
    | FSNode.dir entries _ =>
      match lookupEntry entries ".git" with
      | some (FSNode.dir _ _) =>
        -- main repository: record its own resolved absolute path
        recordRepo acc (renderAbs comps)
      | some (FSNode.file content _) =>
        if startsWithStr content "gitdir:" then
          -- linked worktree: resolve and record the main repository path
          match getMainRepoPath fs cwd (renderAbs comps) with
          | some mainPath => recordRepo acc mainPath
          | none => acc
        else collectChildrenAux (collectReposNode fs cwd fuel) entries comps acc
      | none => collectChildrenAux (collectReposNode fs cwd fuel) entries comps acc

/-- Embedding of `getReposForRoot`: empty result for a missing or
non-directory root, otherwise a depth-limited scan from the resolved root. -/
def getReposForRoot (fs : FSNode) (cwd rootPath : String) : List RepoInfo :=
  match findPath fs cwd rootPath with
  | some (FSNode.dir es m) =>
    (collectReposNode fs cwd (MAX_REPO_SCAN_DEPTH + 1) (FSNode.dir es m)
      (resolveComps cwd rootPath) ⟨[], []⟩).results
  | _ => []

/-! ## Preference path expansion (`expandRoots`) -/

/-- Leading-`~` expansion of a single root entry:
`r.startsWith("~") ? path.join(home, r.slice(1)) : r`. -/
def expandTilde (home r : String) : String :=
  if startsWithStr r "~" then nodeJoin home (strDrop r 1) else r

/-- Embedding of `expandRoots` (src/lib/preferences.ts): split the raw
preference string on newlines, trim each entry, drop blank entries, expand a
leading `~` against the home directory.  (The source performs no
deduplication.) -/
def expandRoots (home : String) (rootsStr : String) : List String :=
  if jsTrim rootsStr = "" then []
  else
    (((splitOnChar '\n' rootsStr).map jsTrim).filter (fun r => r ≠ "")).map
      (expandTilde home)

/-- C4 counterexample: the claim says the returned list is "deduplicated by
content", but `expandRoots` performs no deduplication: on the concrete input
`"a\na"` it returns `["a", "a"]`, which contains a duplicate. -/
theorem C4_counterexample :
    expandRoots "/home/u" "a\na" = ["a", "a"] ∧
      ¬ (expandRoots "/home/u" "a\na").Nodup := by
  decide

/-- C4 (amended): `expandRoots` returns the newline-separated entries trimmed
of surrounding whitespace, with blank entries dropped and a leading `~`
expanded to the home directory, in input order and **without**
deduplication (duplicate entries are preserved); in particular
`expandRoots("~/code\n\n  /tmp/x  \n")` equals `["<home>/code", "/tmp/x"]`,
and `expandRoots("a\na")` equals `["a", "a"]`. -/
theorem C4_amended_thm :
    (∀ home s, jsTrim s ≠ "" →
      expandRoots home s =
        (((splitOnChar '\n' s).map jsTrim).filter (fun r => r ≠ "")).map
          (expandTilde home)) ∧
    expandRoots "/home/u" "~/code\n\n  /tmp/x  \n" = ["/home/u/code", "/tmp/x"] ∧
    expandRoots "/home/u" "a\na" = ["a", "a"] := by
  refine ⟨fun home s h => ?_, by decide, by decide⟩
  unfold expandRoots
  rw [if_neg h]

/-- Witness for the amended C4 theorem: its hypothesis is satisfiable and
the conclusion evaluates on a concrete input. -/
theorem C4_amended_witness :
    (jsTrim "x" ≠ "") ∧
      expandRoots "/home/u" "x" =
        (((splitOnChar '\n' "x").map jsTrim).filter (fun r => r ≠ "")).map
          (expandTilde "/home/u") :=
  ⟨by decide, C4_amended_thm.1 "/home/u" "x" (by decide)⟩

/-! ## Worktree lister (`git worktree list --porcelain` parsing) -/

/-- Parsed `WorktreeLine` record: `{ path, branch?, bare? }`. -/
structure WorktreeLine where
  path : String
  branch : Option String
  bare : Option Bool
deriving Repr, DecidableEq

/-- The externally visible `WorktreeItem`. -/
structure WorktreeItem where
  path : String
  branch : String
  repoName : String
  isMain : Bool
  repoRoot : String
  lastModifiedMs : Option Int
deriving Repr, DecidableEq

/-- The world the discovery pipeline runs against: the filesystem plus the
`git` subprocess oracle — `gitOut args cwd` is the stdout of a successful
`execFile("git", args, {cwd})`, `none` modelling a subprocess failure. -/
structure World where
  fs : FSNode
  gitOut : List String → String → Option String

/-- Parser state: the `current: Partial<WorktreeLine>` object. -/
structure PartialLine where
  path : Option String
  branch : Option String
  bare : Option Bool
deriving Repr, DecidableEq

def clearedLine : PartialLine := ⟨none, none, none⟩

/-- JS truthiness of `current.path` (absent or empty string is falsy). -/
def pathTruthy (current : PartialLine) : Bool :=
  match current.path with
  | some p => p ≠ ""
  | none => false

/-- Embedding of `if (current.path) lines.push(current as WorktreeLine)`. -/
def pushCurrent (current : PartialLine) (acc : List WorktreeLine) :
    List WorktreeLine :=
  match current.path with
  | some p => if p ≠ "" then acc ++ [⟨p, current.branch, current.bare⟩] else acc
  | none => acc

/-- Embedding of `line.slice(7).trim().replace(/^refs\/heads\//, "")`. -/
def stripRefsHeads (s : String) : String :=
  if startsWithStr s "refs/heads/" then strDrop s 11 else s

/-- One line of the porcelain parser loop of `getWorktreesForRepo`. -/
def parseStep (st : PartialLine × List WorktreeLine) (line : String) :
    PartialLine × List WorktreeLine :=
  let current := st.1
  let acc := st.2
  if startsWithStr line "worktree " then
    (⟨some (jsTrim (strDrop line 9)), none, none⟩, pushCurrent current acc)
  else if startsWithStr line "branch " then
    ({ current with branch := some (stripRefsHeads (jsTrim (strDrop line 7))) },
      acc)
  else if startsWithStr line "bare" then
    ({ current with bare := some true }, acc)
  else if line = "" && pathTruthy current then (clearedLine, pushCurrent current acc)
  else (current, acc)

/-- The porcelain parser of `getWorktreesForRepo`: fold `parseStep` over the
lines, then flush the final record. -/
def parseWorktreePorcelain (stdout : String) : List WorktreeLine :=
  let st := (splitOnChar '\n' stdout).foldl parseStep (clearedLine, [])
  pushCurrent st.1 st.2

/-- Embedding of `getWorktreesForRepo`: empty list for a missing or invalid
repository or on subprocess failure, otherwise the parsed porcelain
records. -/
def getWorktreesForRepo (w : World) (cwd repoPath : String) : List WorktreeLine :=
  if existsPath w.fs cwd repoPath && isGitRepo w.fs cwd repoPath then
    match w.gitOut ["worktree", "list", "--porcelain"] (nodeResolve cwd repoPath) with
    | some stdout => parseWorktreePorcelain stdout
    | none => []
  else []

/-! ## Aggregator (`getAllWorktrees`) -/

/-- Embedding of `const mainPath = worktrees[0]?.path || repo.path`. -/
def mainPathOf (repoPath : String) (worktrees : List WorktreeLine) : String :=
  match worktrees.head? with
  | some l => if l.path ≠ "" then l.path else repoPath
  | none => repoPath

/-- Embedding of `path.isAbsolute(wt.path) ? wt.path : path.resolve(repo.path, wt.path)`. -/
def wtAbsPath (repoPath : String) (wt : WorktreeLine) : String :=
  if isAbsolutePath wt.path then wt.path else nodeResolve repoPath wt.path

/-- Build the `WorktreeItem` pushed by the aggregation loop. -/
def mkItem (fs : FSNode) (cwd repoPath repoName mainPath : String)
    (wt : WorktreeLine) : WorktreeItem :=
  let absPath := wtAbsPath repoPath wt
  { path := absPath
    branch := wt.branch.getD "(detached)"
    repoName := repoName
    isMain := absPath == mainPath
    repoRoot := repoPath
    lastModifiedMs := (findPath fs cwd absPath).map FSNode.mtimeOf }

/-- Inner loop of `getAllWorktrees` over the parsed worktree lines of one
repository, threading the shared `seenPaths` set and `items` array. -/
def itemsForLines (fs : FSNode) (cwd repoPath repoName mainPath : String) :
    List WorktreeLine → List WorktreeItem → List String →
      List WorktreeItem × List String
  | [], items, seen => (items, seen)
  | wt :: rest, items, seen =>
    let absPath := wtAbsPath repoPath wt
    if absPath ∈ seen then
      itemsForLines fs cwd repoPath repoName mainPath rest items seen
    else
      itemsForLines fs cwd repoPath repoName mainPath rest
        (items ++ [mkItem fs cwd repoPath repoName mainPath wt]) (absPath :: seen)

/-- Middle loop of `getAllWorktrees` over the repositories of one root. -/
def itemsForRepos (w : World) (cwd : String) :
    List RepoInfo → List WorktreeItem → List String →
      List WorktreeItem × List String
  | [], items, seen => (items, seen)
  | repo :: rest, items, seen =>
    let worktrees := getWorktreesForRepo w cwd repo.path
    let p := itemsForLines w.fs cwd repo.path (nodeBasename repo.path)
      (mainPathOf repo.path worktrees) worktrees items seen
    itemsForRepos w cwd rest p.1 p.2

/-- Outer loop of `getAllWorktrees` over the configured roots. -/
def itemsForRoots (w : World) (cwd : String) :
    List String → List WorktreeItem → List String →
      List WorktreeItem × List String
  | [], items, seen => (items, seen)
  | root :: rest, items, seen =>
    let p := itemsForRepos w cwd (getReposForRoot w.fs cwd root) items seen
    itemsForRoots w cwd rest p.1 p.2

/-- Code-unit lexicographic "less or equal" on character lists, modelling a
non-positive `a.localeCompare(b)` result. -/
def charListLe : List Char → List Char → Bool
  | [], _ => true
  | _ :: _, [] => false
  | a :: as, b :: bs =>
    if a.toNat < b.toNat then true
    else if b.toNat < a.toNat then false
    else charListLe as bs

/-- The sort comparator of `getAllWorktrees` as a relation: `a` sorts before
`b` iff `(b.lastModifiedMs ?? 0) - (a.lastModifiedMs ?? 0)` is negative, or
is zero and `a.path.localeCompare(b.path) <= 0`. -/
def wtBefore (a b : WorktreeItem) : Prop :=
  b.lastModifiedMs.getD 0 < a.lastModifiedMs.getD 0 ∨
    (b.lastModifiedMs.getD 0 = a.lastModifiedMs.getD 0 ∧
      charListLe a.path.data b.path.data = true)

instance : DecidableRel wtBefore := fun a b => by
  unfold wtBefore; infer_instance

/-- Embedding of `getAllWorktrees`: aggregate all roots with global
de-duplication by absolute path, then sort by the comparator (JS
`Array.prototype.sort` is stable; `List.insertionSort` is the corresponding
stable sort). -/
def getAllWorktrees (w : World) (cwd : String) (roots : List String) :
    List WorktreeItem :=
  List.insertionSort wtBefore (itemsForRoots w cwd roots [] []).1

/-! ## Aggregation candidates and first-occurrence de-duplication -/

/-- All items one repository contributes before de-duplication. -/
def candsForLines (fs : FSNode) (cwd repoPath repoName mainPath : String)
    (lines : List WorktreeLine) : List WorktreeItem :=
  lines.map (mkItem fs cwd repoPath repoName mainPath)

/-- All items the repositories of one root contribute before
de-duplication. -/
def candsForRepos (w : World) (cwd : String) (repos : List RepoInfo) :
    List WorktreeItem :=
  repos.flatMap (fun repo =>
    let worktrees := getWorktreesForRepo w cwd repo.path
    candsForLines w.fs cwd repo.path (nodeBasename repo.path)
      (mainPathOf repo.path worktrees) worktrees)

/-- Every item the aggregation would visit, in root/repository/listing
order, before de-duplication. -/
def allCandidates (w : World) (cwd : String) (roots : List String) :
    List WorktreeItem :=
  roots.flatMap (fun root => candsForRepos w cwd (getReposForRoot w.fs cwd root))

/-- Keep only the first item carrying each path (relative to an initial
`seen` set). -/
def dedupFirst : List String → List WorktreeItem → List WorktreeItem
  | _, [] => []
  | seen, i :: r =>
    if i.path ∈ seen then dedupFirst seen r
    else i :: dedupFirst (i.path :: seen) r

/-- The `seen` set after a pass of `dedupFirst`. -/
def seenAfterD : List String → List WorktreeItem → List String
  | seen, [] => seen
  | seen, i :: r =>
    if i.path ∈ seen then seenAfterD seen r else seenAfterD (i.path :: seen) r

/-! ## Scanner scenarios: nested repositories and the depth bound -/

/-- A bare `.git` metadata directory. -/
def gitDirNode : FSNode := FSNode.dir [] 0

/-- A chain of `n` nested directories named `a`, with a Git repository
(a `.git` directory) at the bottom. -/
def chainN : Nat → FSNode
  | 0 => FSNode.dir [(".git", gitDirNode)] 0
  | n + 1 => FSNode.dir [("a", chainN n)] 0

/-- Scanning a chain records the bottom repository exactly when the
remaining depth budget covers the chain length. -/
theorem collectReposNode_chainN (fs : FSNode) (cwd : String) :
    ∀ (n fuel : Nat) (comps : List String) (acc : ScanAcc),
      collectReposNode fs cwd fuel (chainN n) comps acc =
        if n + 1 ≤ fuel then
          recordRepo acc (renderAbs (comps ++ List.replicate n "a"))
        else acc := by
  intro n
  induction n with
  | zero =>
    intro fuel comps acc
    match fuel with
    | 0 =>
      rw [show collectReposNode fs cwd 0 (chainN 0) comps acc = acc from rfl,
        if_neg (by omega)]
    | fuel + 1 =>
      have h1 : 0 + 1 ≤ fuel + 1 := Nat.succ_le_succ (Nat.zero_le _)
      simp [collectReposNode, chainN, lookupEntry, gitDirNode, h1]
  | succ n ih =>
    intro fuel comps acc
    match fuel with
    | 0 =>
      rw [show collectReposNode fs cwd 0 (chainN (n + 1)) comps acc = acc
          from rfl, if_neg (by omega)]
    | fuel + 1 =>
      have hstep : collectReposNode fs cwd (fuel + 1) (chainN (n + 1)) comps acc
          = collectReposNode fs cwd fuel (chainN n) (comps ++ ["a"]) acc := by
        have hdir : (chainN n).isDirNode = true := by
          cases n <;> simp [chainN, FSNode.isDirNode]
        simp [collectReposNode, chainN, lookupEntry, collectChildrenAux, hdir]
      rw [hstep, ih]
      rw [show comps ++ ["a"] ++ List.replicate n "a"
            = comps ++ List.replicate (n + 1) "a" by
          simp [List.replicate_succ, List.append_assoc]]
      by_cases h : n + 1 ≤ fuel
      · rw [if_pos h, if_pos (Nat.succ_le_succ h)]
      · rw [if_neg h, if_neg (fun hc => h (Nat.le_of_succ_le_succ hc))]

/-- C5: the scan enforces the hard depth bound `MAX_REPO_SCAN_DEPTH = 15`
below a configured root: on a root holding a repository nested `n` levels
deep, the repository is discovered iff `n ≤ 15`; in particular it is found
at exactly depth 15 and missed at depth 16. -/
theorem C5_depth_limit :
    (∀ n : Nat,
      getReposForRoot (FSNode.dir [("r", chainN n)] 0) "/" "/r" =
        if n ≤ MAX_REPO_SCAN_DEPTH then
          [⟨renderAbs ("r" :: List.replicate n "a")⟩] else []) ∧
    (getReposForRoot (FSNode.dir [("r", chainN 15)] 0) "/" "/r").length = 1 ∧
    getReposForRoot (FSNode.dir [("r", chainN 16)] 0) "/" "/r" = [] := by
  refine ⟨fun n => ?_, by decide, by decide⟩
  have hmain : getReposForRoot (FSNode.dir [("r", chainN n)] 0) "/" "/r"
      = (collectReposNode (FSNode.dir [("r", chainN n)] 0) "/"
          (MAX_REPO_SCAN_DEPTH + 1) (chainN n) ["r"] ⟨[], []⟩).results := by
    cases n <;> rfl
  rw [hmain, collectReposNode_chainN]
  by_cases h : n ≤ MAX_REPO_SCAN_DEPTH
  · rw [if_pos (Nat.succ_le_succ h), if_pos h]
    simp [recordRepo]
  · rw [if_neg (fun hc => h (Nat.le_of_succ_le_succ hc)), if_neg h]

/-- Filesystem for the C3 counterexample: the configured root contains an
outer repository whose working directory contains an inner repository. -/
def fsOuterInner : FSNode :=
  FSNode.dir
    [("outer", FSNode.dir
      [(".git", gitDirNode),
       ("inner", FSNode.dir [(".git", gitDirNode)] 0)] 0)] 0

/-- C3 counterexample: scanning a root that contains an outer repository
with an inner repository nested in its working directory records only the
outer repository — the inner one is **not** recorded, contradicting the
claim that the scan "still records the inner repository once". -/
theorem C3_counterexample :
    (getReposForRoot fsOuterInner "/" "/").map RepoInfo.path = ["/outer"] ∧
      RepoInfo.mk "/outer/inner" ∉ getReposForRoot fsOuterInner "/" "/" := by
  decide

/-- Filesystem for the amended C3 theorem: the configured root
(`/outer/src`) lies strictly inside the outer repository's working
directory, so the walk reaches the inner repository without passing the
outer repository's top directory; the inner repository itself contains a
deeper repository (`deep`) that must not be discovered. -/
def fsRootInsideOuter : FSNode :=
  FSNode.dir
    [("outer", FSNode.dir
      [(".git", gitDirNode),
       ("src", FSNode.dir
         [("inner", FSNode.dir
           [(".git", gitDirNode),
            ("deep", FSNode.dir [(".git", gitDirNode)] 0)] 0)] 0)] 0)] 0

/-- C3 (amended): the recursive scan never scans a repository's directory
internally — at any directory having a `.git` subdirectory the walk just
records the repository, whatever else the directory contains (first
conjunct, for arbitrary directory contents); consequently a repository
nested inside another repository's working directory is recorded once only
when the walk reaches it without passing through the enclosing repository's
top directory (e.g. when the configured root lies strictly inside the outer
working directory), and repositories nested inside the recorded repository
are not reported (second conjunct). -/
theorem C3_amended_thm :
    (∀ (fs : FSNode) (cwd : String) (entries : List (String × FSNode))
        (m gm : Int) (ges : List (String × FSNode)) (comps : List String)
        (acc : ScanAcc) (fuel : Nat),
      lookupEntry entries ".git" = some (FSNode.dir ges gm) →
        collectReposNode fs cwd (fuel + 1) (FSNode.dir entries m) comps acc =
          recordRepo acc (renderAbs comps)) ∧
    (getReposForRoot fsRootInsideOuter "/" "/outer/src").map RepoInfo.path =
      ["/outer/src/inner"] := by
  refine ⟨fun fs cwd entries m gm ges comps acc fuel h => ?_, by decide⟩
  simp [collectReposNode, h]

/-- Witness for the amended C3 theorem: the no-internal-scan conjunct
applied to the outer repository directory of `fsOuterInner`. -/
theorem C3_amended_witness :
    lookupEntry [(".git", gitDirNode),
        ("inner", FSNode.dir [(".git", gitDirNode)] 0)] ".git" =
      some (FSNode.dir [] 0) ∧
    collectReposNode fsOuterInner "/" 16
        (FSNode.dir [(".git", gitDirNode),
          ("inner", FSNode.dir [(".git", gitDirNode)] 0)] 0)
        ["outer"] ⟨[], []⟩ =
      recordRepo ⟨[], []⟩ (renderAbs ["outer"]) :=
  ⟨rfl, C3_amended_thm.1 fsOuterInner "/" _ 0 0 [] ["outer"] ⟨[], []⟩ 15 rfl⟩

/-! ## Worktree mutation protocol -/

/-- The `MutationResult` record: success flag plus optional error string. -/
structure MutationResult where
  success : Bool
  error : Option String
deriving Repr, DecidableEq

/-- The error object a failing `execFileAsync` rejects with: optional
`message` / `stderr` / `stdout` fields plus its `String(err)` rendering. -/
structure ExecErr where
  message : Option String
  stderr : Option String
  stdout : Option String
  asString : String
deriving Repr, DecidableEq

/-- Embedding of `[e.message, e.stderr, e.stdout].filter(Boolean).join("\n").trim()`,
falling back to `String(err)` when no part is a non-empty string. -/
def errText (e : ExecErr) : String :=
  let parts := ([e.message, e.stderr, e.stdout].filterMap id).filter
    (fun s => s ≠ "")
  if parts.isEmpty then e.asString else jsTrim (intercalateStr "\n" parts)

/-- How the spawned `git worktree add` subprocess ends (when not aborted):
it closes with an exit code (`none` models a `null` code) or errors out. -/
inductive AddEvent where
  | closes (code : Option Int)
  | errors (msg : String)
deriving Repr, DecidableEq

/-- A recorded git invocation: working directory and argument vector. -/
abbrev GitCall := String × List String

/-- Subprocess oracle for the mutation functions: outcomes of
`execFileAsync("git", args, {cwd})` calls, of the spawned `worktree add`,
and of the `trash` call. -/
structure GitEnv where
  exec : String → List String → Except ExecErr String
  addSpawn : AddEvent
  addChunks : List String
  trash : Except ExecErr Unit

/-- The distinguished cancellation sentinel. -/
def CANCELLED_ERROR : String := "Cancelled"

def DEFAULT_REMOTE : String := "origin"

/-- Rendering of the exit code in `git worktree add exited with ${code}`. -/
def codeStr : Option Int → String
  | some c => toString c
  | none => "null"

/-- Outcome of `runGitWorktreeAdd`: its resolved result, the spawn it
issued (if any), and whether it killed the subprocess. -/
structure AddRun where
  result : MutationResult
  calls : List GitCall
  killed : Bool
deriving Repr, DecidableEq

/-- Embedding of `runGitWorktreeAdd`: if the signal is already aborted no
subprocess is spawned and the result is the Cancelled sentinel; if the
signal fires while the subprocess runs it is killed (`SIGTERM`) and the
result is the Cancelled sentinel; otherwise exit code 0 is success and a
nonzero/`null` code fails with the captured output (or a generic
`exited with` message when the capture trims to empty); a spawn error fails
with its message. -/
def runGitWorktreeAdd (env : GitEnv) (cwd : String) (args : List String)
    (abortedAtEntry abortsDuring : Bool) : AddRun :=
  if abortedAtEntry then ⟨⟨false, some CANCELLED_ERROR⟩, [], false⟩
  else
    let call : GitCall := (cwd, ["worktree", "add"] ++ args)
    if abortsDuring then ⟨⟨false, some CANCELLED_ERROR⟩, [call], true⟩
    else
      match env.addSpawn with
      | AddEvent.closes code =>
        if code = some 0 then ⟨⟨true, none⟩, [call], false⟩
        else
          let t := jsTrim (joinStrs env.addChunks)
          ⟨⟨false,
            some (if t = "" then "git worktree add exited with " ++ codeStr code
              else t)⟩, [call], false⟩
      | AddEvent.errors msg => ⟨⟨false, some msg⟩, [call], false⟩

/-- Embedding of `hasLocalBranch`: `git rev-parse --verify
refs/heads/<branch>` succeeds; `false` on any failure (including an invalid
repository, in which case no subprocess runs). -/
def hasLocalBranch (fs : FSNode) (env : GitEnv) (cwd repoPath branch : String) :
    Bool × List GitCall :=
  if existsPath fs cwd repoPath && isGitRepo fs cwd repoPath then
    let call : GitCall := (nodeResolve cwd repoPath,
      ["rev-parse", "--verify", "refs/heads/" ++ branch])
    match env.exec call.1 call.2 with
    | Except.ok _ => (true, [call])
    | Except.error _ => (false, [call])
  else (false, [])

/-- Embedding of `getDefaultRemote`: `origin` if present among `git remote`
lines, else the first remote, else `none`. -/
def getDefaultRemote (fs : FSNode) (env : GitEnv) (cwd repoPath : String) :
    Option String × List GitCall :=
  if existsPath fs cwd repoPath && isGitRepo fs cwd repoPath then
    let call : GitCall := (nodeResolve cwd repoPath, ["remote"])
    match env.exec call.1 call.2 with
    | Except.ok stdout =>
      let remotes := ((splitOnChar '\n' stdout).map jsTrim).filter (fun r => r ≠ "")
      (if "origin" ∈ remotes then some "origin" else remotes.head?, [call])
    | Except.error _ => (none, [call])
  else (none, [])

/-- Embedding of `getUpstreamRef`: the trimmed stdout of
`git rev-parse --abbrev-ref <branch>@\x7bupstream\x7d` when non-empty and free of
`@`, else `none`. -/
def getUpstreamRef (fs : FSNode) (env : GitEnv) (cwd repoPath localBranch : String) :
    Option String × List GitCall :=
  if existsPath fs cwd repoPath && isGitRepo fs cwd repoPath then
    let call : GitCall := (nodeResolve cwd repoPath,
      ["rev-parse", "--abbrev-ref", localBranch ++ "@\x7bupstream\x7d"])
    match env.exec call.1 call.2 with
    | Except.ok stdout =>
      let ref := jsTrim stdout
      (if ref ≠ "" && !(containsChar ref '@') then some ref else none, [call])
    | Except.error _ => (none, [call])
  else (none, [])

/-- Embedding of `setBranchUpstream` (best-effort, result always `void`):
`git branch --set-upstream-to origin/<branch> <branch>`, falling back on
failure to writing the `branch.<branch>.remote` / `branch.<branch>.merge`
config keys; only the issued calls are observable. -/
def setBranchUpstream (env : GitEnv) (worktreePath branch : String) :
    List GitCall :=
  let c1 : GitCall := (worktreePath,
    ["branch", "--set-upstream-to", DEFAULT_REMOTE ++ "/" ++ branch, branch])
  match env.exec c1.1 c1.2 with
  | Except.ok _ => [c1]
  | Except.error _ =>
    let c2 : GitCall := (worktreePath,
      ["config", "branch." ++ branch ++ ".remote", DEFAULT_REMOTE])
    let c3 : GitCall := (worktreePath,
      ["config", "branch." ++ branch ++ ".merge", "refs/heads/" ++ branch])
    match env.exec c2.1 c2.2 with
    | Except.ok _ => [c1, c2, c3]
    | Except.error _ => [c1, c2]

/-- Embedding of `createWorktree`: validate repository and branch name,
resolve a relative destination against the parent directory of the resolved
repository, then attach the existing local branch or create it from the
default remote's ref. -/
def createWorktree (fs : FSNode) (env : GitEnv)
    (cwd repoPath branch worktreePath : String) :
    MutationResult × List GitCall :=
  if !(existsPath fs cwd repoPath && isGitRepo fs cwd repoPath) then
    (⟨false, some "Repository not found"⟩, [])
  else
    let absRepo := nodeResolve cwd repoPath
    let absWorktree :=
      if isAbsolutePath worktreePath then worktreePath
      else nodeResolve (nodeDirname absRepo) worktreePath
    if jsTrim branch = "" then (⟨false, some "Branch is required"⟩, [])
    else
      let branchName := jsTrim branch
      let hb := hasLocalBranch fs env cwd absRepo branchName
      if hb.1 then
        let call : GitCall := (absRepo, ["worktree", "add", absWorktree, branchName])
        match env.exec call.1 call.2 with
        | Except.ok _ => (⟨true, none⟩, hb.2 ++ [call])
        | Except.error e => (⟨false, some (errText e)⟩, hb.2 ++ [call])
      else
        let dr := getDefaultRemote fs env cwd absRepo
        let startPoint :=
          match dr.1 with
          | some remote => remote ++ "/" ++ branchName
          | none => branchName
        let call : GitCall :=
          (absRepo, ["worktree", "add", "-b", branchName, absWorktree, startPoint])
        match env.exec call.1 call.2 with
        | Except.ok _ => (⟨true, none⟩, hb.2 ++ dr.2 ++ [call])
        | Except.error e => (⟨false, some (errText e)⟩, hb.2 ++ dr.2 ++ [call])

/-- When the cancellation signal fires relative to the checkpoints of
`createWorktreeFromBase`: never, before the first checkpoint, between the
branch-existence check and the second checkpoint, or while the spawned
`worktree add` subprocess is running. -/
inductive AbortTime where
  | never
  | atStart
  | afterBranchCheck
  | duringAdd
deriving Repr, DecidableEq

/-- Embedding of `newBranchName.trim().replace(/[/\\]/g, "-")`. -/
def sanitizeBranchName (s : String) : String :=
  mapStr (fun c => if c = '/' ∨ c = '\\' then '-' else c) (jsTrim s)

/-- Outcome of `createWorktreeFromBase`: result, issued git calls, and
whether a spawned subprocess was killed by cancellation. -/
structure MutRun where
  result : MutationResult
  calls : List GitCall
  killed : Bool
deriving Repr, DecidableEq

/-- Embedding of `createWorktreeFromBase`: validate repository, base branch
and sanitized branch name; then (checking the cancellation signal at each
checkpoint) either attach an existing local branch, or create the branch
from the base's upstream ref (or the base itself) and best-effort configure
its upstream afterwards. -/
def createWorktreeFromBase (fs : FSNode) (env : GitEnv)
    (cwd repoPath newBranchName worktreePath baseBranch : String)
    (abort : AbortTime) : MutRun :=
  if !(existsPath fs cwd repoPath && isGitRepo fs cwd repoPath) then
    ⟨⟨false, some "Repository not found"⟩, [], false⟩
  else
    let absRepo := nodeResolve cwd repoPath
    let base := jsTrim baseBranch
    if base = "" then ⟨⟨false, some "Base branch is required"⟩, [], false⟩
    else
      let branch := sanitizeBranchName newBranchName
      if branch = "" then ⟨⟨false, some "Worktree name is required"⟩, [], false⟩
      else
        let absWorktree :=
          if isAbsolutePath worktreePath then worktreePath
          else nodeResolve (nodeDirname absRepo) worktreePath
        if abort = AbortTime.atStart then
          ⟨⟨false, some CANCELLED_ERROR⟩, [], false⟩
        else
          let hb := hasLocalBranch fs env cwd absRepo branch
          if abort = AbortTime.afterBranchCheck then
            ⟨⟨false, some CANCELLED_ERROR⟩, hb.2, false⟩
          else if hb.1 then
            let r := runGitWorktreeAdd env absRepo [absWorktree, branch] false
              (decide (abort = AbortTime.duringAdd))
            ⟨r.result, hb.2 ++ r.calls, r.killed⟩
          else
            let ur := getUpstreamRef fs env cwd absRepo base
            let startPoint := ur.1.getD base
            let r := runGitWorktreeAdd env absRepo
              ["-b", branch, absWorktree, startPoint] false
              (decide (abort = AbortTime.duringAdd))
            if r.result.success then
              ⟨r.result, hb.2 ++ ur.2 ++ r.calls ++
                setBranchUpstream env absWorktree branch, r.killed⟩
            else ⟨r.result, hb.2 ++ ur.2 ++ r.calls, r.killed⟩

/-- Embedding of `removeWorktree`: `git worktree remove <path> --force`
scoped to the repository root; if the directory still exists afterwards it
is moved to the trash; any thrown error yields a failure with the combined
diagnostic text. -/
def removeWorktree (fs : FSNode) (env : GitEnv)
    (cwd repoRoot worktreePath : String) : MutationResult × List GitCall :=
  let call : GitCall := (repoRoot, ["worktree", "remove", worktreePath, "--force"])
  match env.exec call.1 call.2 with
  | Except.error e => (⟨false, some (errText e)⟩, [call])
  | Except.ok _ =>
    if existsPath fs cwd worktreePath then
      match env.trash with
      | Except.ok _ => (⟨true, none⟩, [call])
      | Except.error e => (⟨false, some (errText e)⟩, [call])
    else (⟨true, none⟩, [call])

/-! ## Comparator facts and aggregation lemmas -/

theorem charListLe_total : ∀ as bs : List Char,
    charListLe as bs = true ∨ charListLe bs as = true
  | [], _ => Or.inl rfl
  | _ :: _, [] => Or.inr rfl
  | a :: as, b :: bs => by
    by_cases h1 : a.toNat < b.toNat
    · left; simp [charListLe, h1]
    · by_cases h2 : b.toNat < a.toNat
      · right; simp [charListLe, h1, h2]
      · rcases charListLe_total as bs with h | h
        · left; simp [charListLe, h1, h2, h]
        · right; simp [charListLe, h1, h2, h]

theorem charListLe_trans : ∀ as bs cs : List Char,
    charListLe as bs = true → charListLe bs cs = true → charListLe as cs = true
  | [], _, _, _, _ => rfl
  | _ :: _, [], _, h1, _ => by simp [charListLe] at h1
  | _ :: _, _ :: _, [], _, h2 => by simp [charListLe] at h2
  | a :: as, b :: bs, c :: cs, h1, h2 => by
    simp only [charListLe] at h1 h2 ⊢
    rcases Nat.lt_trichotomy a.toNat b.toNat with hab | hab | hab
    · rcases Nat.lt_trichotomy b.toNat c.toNat with hbc | hbc | hbc
      · simp [show a.toNat < c.toNat by omega]
      · simp [show a.toNat < c.toNat by omega]
      · simp [show ¬ b.toNat < c.toNat by omega,
          show c.toNat < b.toNat from hbc] at h2
    · rcases Nat.lt_trichotomy b.toNat c.toNat with hbc | hbc | hbc
      · simp [show a.toNat < c.toNat by omega]
      · simp [show ¬ a.toNat < b.toNat by omega,
          show ¬ b.toNat < a.toNat by omega] at h1
        simp [show ¬ b.toNat < c.toNat by omega,
          show ¬ c.toNat < b.toNat by omega] at h2
        simp [show ¬ a.toNat < c.toNat by omega,
          show ¬ c.toNat < a.toNat by omega]
        exact charListLe_trans as bs cs h1 h2
      · simp [show ¬ b.toNat < c.toNat by omega,
          show c.toNat < b.toNat from hbc] at h2
    · simp [show ¬ a.toNat < b.toNat by omega,
        show b.toNat < a.toNat from hab] at h1

instance : IsTotal WorktreeItem wtBefore := ⟨fun a b => by
  unfold wtBefore
  rcases lt_trichotomy (b.lastModifiedMs.getD 0) (a.lastModifiedMs.getD 0)
    with h | h | h
  · exact Or.inl (Or.inl h)
  · rcases charListLe_total a.path.data b.path.data with hp | hp
    · exact Or.inl (Or.inr ⟨h, hp⟩)
    · exact Or.inr (Or.inr ⟨h.symm, hp⟩)
  · exact Or.inr (Or.inl h)⟩

instance : IsTrans WorktreeItem wtBefore := ⟨fun a b c hab hbc => by
  unfold wtBefore at hab hbc ⊢
  rcases hab with h1 | ⟨e1, p1⟩ <;> rcases hbc with h2 | ⟨e2, p2⟩
  · exact Or.inl (lt_trans h2 h1)
  · exact Or.inl (by rw [e2]; exact h1)
  · exact Or.inl (by rw [← e1]; exact h2)
  · exact Or.inr ⟨e2.trans e1, charListLe_trans _ _ _ p1 p2⟩⟩

theorem mkItem_path (fs : FSNode) (cwd repoPath repoName mainPath : String)
    (wt : WorktreeLine) :
    (mkItem fs cwd repoPath repoName mainPath wt).path = wtAbsPath repoPath wt :=
  rfl

/-- The inner aggregation loop is first-occurrence filtering of the
candidate items of the repository. -/
theorem itemsForLines_eq (fs : FSNode) (cwd rp rn mp : String) :
    ∀ (lines : List WorktreeLine) (items : List WorktreeItem)
      (seen : List String),
      itemsForLines fs cwd rp rn mp lines items seen =
        (items ++ dedupFirst seen (candsForLines fs cwd rp rn mp lines),
          seenAfterD seen (candsForLines fs cwd rp rn mp lines)) := by
  intro lines
  induction lines with
  | nil =>
    intro items seen
    simp [itemsForLines, candsForLines, dedupFirst, seenAfterD]
  | cons wt rest ih =>
    intro items seen
    by_cases h : wtAbsPath rp wt ∈ seen
    · rw [show itemsForLines fs cwd rp rn mp (wt :: rest) items seen
          = itemsForLines fs cwd rp rn mp rest items seen by
        simp [itemsForLines, h]]
      rw [ih]
      simp [candsForLines, dedupFirst, seenAfterD, mkItem_path, h]
    · rw [show itemsForLines fs cwd rp rn mp (wt :: rest) items seen
          = itemsForLines fs cwd rp rn mp rest
              (items ++ [mkItem fs cwd rp rn mp wt])
              (wtAbsPath rp wt :: seen) by
        simp [itemsForLines, h]]
      rw [ih]
      simp [candsForLines, dedupFirst, seenAfterD, mkItem_path, h]

theorem dedupFirst_append (l1 l2 : List WorktreeItem) : ∀ seen : List String,
    dedupFirst seen (l1 ++ l2) =
      dedupFirst seen l1 ++ dedupFirst (seenAfterD seen l1) l2 := by
  induction l1 with
  | nil => intro seen; simp [dedupFirst, seenAfterD]
  | cons i r ih =>
    intro seen
    by_cases h : i.path ∈ seen <;>
      simp [dedupFirst, seenAfterD, h, ih]

theorem seenAfterD_append (l1 l2 : List WorktreeItem) : ∀ seen : List String,
    seenAfterD seen (l1 ++ l2) = seenAfterD (seenAfterD seen l1) l2 := by
  induction l1 with
  | nil => intro seen; simp [seenAfterD]
  | cons i r ih =>
    intro seen
    by_cases h : i.path ∈ seen <;> simp [seenAfterD, h, ih]

/-- The middle aggregation loop is first-occurrence filtering of the
candidate items of the root's repositories. -/
theorem itemsForRepos_eq (w : World) (cwd : String) :
    ∀ (repos : List RepoInfo) (items : List WorktreeItem) (seen : List String),
      itemsForRepos w cwd repos items seen =
        (items ++ dedupFirst seen (candsForRepos w cwd repos),
          seenAfterD seen (candsForRepos w cwd repos)) := by
  intro repos
  induction repos with
  | nil =>
    intro items seen
    simp [itemsForRepos, candsForRepos, dedupFirst, seenAfterD]
  | cons repo rest ih =>
    intro items seen
    rw [show candsForRepos w cwd (repo :: rest)
        = candsForLines w.fs cwd repo.path (nodeBasename repo.path)
            (mainPathOf repo.path (getWorktreesForRepo w cwd repo.path))
            (getWorktreesForRepo w cwd repo.path) ++ candsForRepos w cwd rest by
      simp [candsForRepos]]
    rw [dedupFirst_append, seenAfterD_append]
    simp only [itemsForRepos, itemsForLines_eq]
    rw [ih, List.append_assoc]

/-- The outer aggregation loop is first-occurrence filtering of all
candidate items, in root/repository/listing order. -/
theorem itemsForRoots_eq (w : World) (cwd : String) :
    ∀ (roots : List String) (items : List WorktreeItem) (seen : List String),
      itemsForRoots w cwd roots items seen =
        (items ++ dedupFirst seen (allCandidates w cwd roots),
          seenAfterD seen (allCandidates w cwd roots)) := by
  intro roots
  induction roots with
  | nil =>
    intro items seen
    simp [itemsForRoots, allCandidates, dedupFirst, seenAfterD]
  | cons root rest ih =>
    intro items seen
    rw [show allCandidates w cwd (root :: rest)
        = candsForRepos w cwd (getReposForRoot w.fs cwd root)
            ++ allCandidates w cwd rest by
      simp [allCandidates]]
    rw [dedupFirst_append, seenAfterD_append]
    simp only [itemsForRoots, itemsForRepos_eq]
    rw [ih, List.append_assoc]

/-- The list `dedupFirst seen l` yields pairwise-distinct paths, all outside the initial
`seen` set. -/
theorem dedupFirst_nodup : ∀ (l : List WorktreeItem) (seen : List String),
    ((dedupFirst seen l).map WorktreeItem.path).Nodup ∧
      ∀ p ∈ (dedupFirst seen l).map WorktreeItem.path, p ∉ seen := by
  intro l
  induction l with
  | nil => intro seen; simp [dedupFirst]
  | cons i r ih =>
    intro seen
    by_cases h : i.path ∈ seen
    · simpa [dedupFirst, h] using ih seen
    · simp only [dedupFirst, if_neg h, List.map_cons, List.nodup_cons]
      obtain ⟨hn, hs⟩ := ih (i.path :: seen)
      refine ⟨⟨fun hmem => ?_, hn⟩, ?_⟩
      · exact hs _ hmem (List.mem_cons_self _ _)
      · intro p hp
        rcases List.mem_cons.mp hp with rfl | hp'
        · exact h
        · intro hin
          exact hs _ hp' (List.mem_cons_of_mem _ hin)

/-- C1: across all configured roots the aggregated collection holds no two
items with the same absolute path, and as a multiset it equals the
first-occurrence filtering (in root/repository/listing order) of every item
the aggregation visits — i.e. the first occurrence of each path is the one
kept. -/
theorem C1_dedup_invariant :
    ∀ (w : World) (cwd : String) (roots : List String),
      ((getAllWorktrees w cwd roots).map WorktreeItem.path).Nodup ∧
        (getAllWorktrees w cwd roots).Perm
          (dedupFirst [] (allCandidates w cwd roots)) := by
  intro w cwd roots
  have hitems : (itemsForRoots w cwd roots [] []).1
      = dedupFirst [] (allCandidates w cwd roots) := by
    rw [itemsForRoots_eq]; simp
  have hperm : (getAllWorktrees w cwd roots).Perm
      (dedupFirst [] (allCandidates w cwd roots)) := by
    rw [getAllWorktrees, hitems]
    exact List.perm_insertionSort _ _
  refine ⟨?_, hperm⟩
  exact ((hperm.map WorktreeItem.path).nodup_iff).mpr
    (dedupFirst_nodup (allCandidates w cwd roots) []).1

/-- A concrete world for the C2 ordering example: one repository `/repo`
listing worktrees `/a`, `/b`, `/c`, `/d` with mtimes 100, 300, 300 and a
missing `/d` (whose stat fails, so its timestamp is absent). -/
def exampleWorld : World where
  fs := FSNode.dir
    [("repo", FSNode.dir [(".git", gitDirNode)] 0),
     ("a", FSNode.dir [] 100),
     ("b", FSNode.dir [] 300),
     ("c", FSNode.dir [] 300)] 0
  gitOut := fun args cwdp =>
    if args = ["worktree", "list", "--porcelain"] ∧ cwdp = "/repo" then
      some "worktree /a\nbranch refs/heads/x\n\nworktree /b\n\nworktree /c\n\nworktree /d\n"
    else none

/-- C2: the aggregated output is sorted by the comparator — descending by
`lastModifiedMs` with an absent timestamp treated as `0`, ties broken by
ascending lexical path — and is a permutation of the de-duplicated items;
on the concrete world with timestamps `[100, 300, 300, none]` for paths
`[/a, /b, /c, /d]` the output order is `/b, /c, /a, /d`. -/
theorem C2_ordering :
    (∀ (w : World) (cwd : String) (roots : List String),
      (getAllWorktrees w cwd roots).Sorted wtBefore ∧
        (getAllWorktrees w cwd roots).Perm (itemsForRoots w cwd roots [] []).1) ∧
    (getAllWorktrees exampleWorld "/" ["/"]).map WorktreeItem.path =
      ["/b", "/c", "/a", "/d"] ∧
    (getAllWorktrees exampleWorld "/" ["/"]).map WorktreeItem.lastModifiedMs =
      [some 300, some 300, some 100, none] := by
  refine ⟨fun w cwd roots => ⟨?_, ?_⟩, by decide, by decide⟩
  · exact List.sorted_insertionSort wtBefore _
  · exact List.perm_insertionSort wtBefore _

/-! ## Mutation-protocol lemmas and claims -/

/-- Running `runGitWorktreeAdd` with a signal aborting mid-run kills the subprocess
and resolves with the Cancelled sentinel. -/
theorem runGitWorktreeAdd_during (env : GitEnv) (cwd : String)
    (args : List String) :
    runGitWorktreeAdd env cwd args false true =
      ⟨⟨false, some CANCELLED_ERROR⟩, [(cwd, ["worktree", "add"] ++ args)],
        true⟩ := rfl

/-- An unaborted `runGitWorktreeAdd` spawns exactly one `worktree add`. -/
theorem runGitWorktreeAdd_calls (env : GitEnv) (cwd : String)
    (args : List String) :
    (runGitWorktreeAdd env cwd args false false).calls =
      [(cwd, ["worktree", "add"] ++ args)] := by
  unfold runGitWorktreeAdd
  cases env.addSpawn with
  | closes code => by_cases hc : code = some 0 <;> simp [hc]
  | errors m => simp

/-- An unaborted `runGitWorktreeAdd` never kills anything. -/
theorem runGitWorktreeAdd_killed (env : GitEnv) (cwd : String)
    (args : List String) :
    (runGitWorktreeAdd env cwd args false false).killed = false := by
  unfold runGitWorktreeAdd
  cases env.addSpawn with
  | closes code => by_cases hc : code = some 0 <;> simp [hc]
  | errors m => simp

/-- The probe `hasLocalBranch` issues no call (invalid repository) or exactly the
`rev-parse --verify` probe. -/
theorem hasLocalBranch_calls (fs : FSNode) (env : GitEnv) (cwd rp b : String) :
    (hasLocalBranch fs env cwd rp b).2 = [] ∨
      (hasLocalBranch fs env cwd rp b).2 =
        [(nodeResolve cwd rp, ["rev-parse", "--verify", "refs/heads/" ++ b])] := by
  unfold hasLocalBranch
  by_cases hc : (existsPath fs cwd rp && isGitRepo fs cwd rp) = true
  · cases hx : env.exec (nodeResolve cwd rp)
      ["rev-parse", "--verify", "refs/heads/" ++ b] <;> simp [hc, hx]
  · simp [hc]

/-- The `error.isSome ↔ ¬success` invariant for `runGitWorktreeAdd`. -/
theorem runGitWorktreeAdd_error_iff (env : GitEnv) (cwd : String)
    (args : List String) (e1 e2 : Bool) :
    (runGitWorktreeAdd env cwd args e1 e2).result.error.isSome
      = !(runGitWorktreeAdd env cwd args e1 e2).result.success := by
  unfold runGitWorktreeAdd
  cases e1
  · cases e2
    · cases env.addSpawn with
      | closes code => by_cases hc : code = some 0 <;> simp [hc]
      | errors m => simp
    · simp
  · simp

/-- C6: with valid inputs, if the cancellation signal is already aborted at
the first checkpoint, `createWorktreeFromBase` returns the Cancelled
sentinel having issued zero git subprocess invocations and killed nothing;
if the signal fires while the `worktree add` subprocess runs, the result is
still the Cancelled sentinel (not a generic failure) and the subprocess was
killed. -/
theorem C6_cancellation :
    ∀ (fs : FSNode) (env : GitEnv) (cwd repoPath n wt base : String),
      (existsPath fs cwd repoPath && isGitRepo fs cwd repoPath) = true →
      jsTrim base ≠ "" →
      sanitizeBranchName n ≠ "" →
      (createWorktreeFromBase fs env cwd repoPath n wt base AbortTime.atStart =
          ⟨⟨false, some CANCELLED_ERROR⟩, [], false⟩) ∧
      ((createWorktreeFromBase fs env cwd repoPath n wt base
            AbortTime.duringAdd).result = ⟨false, some CANCELLED_ERROR⟩ ∧
        (createWorktreeFromBase fs env cwd repoPath n wt base
            AbortTime.duringAdd).killed = true) := by
  intro fs env cwd repoPath n wt base h hb hn
  constructor
  · simp [createWorktreeFromBase, h, hb, hn]
  · by_cases hl : (hasLocalBranch fs env cwd (nodeResolve cwd repoPath)
        (sanitizeBranchName n)).1 = true
    · simp [createWorktreeFromBase, h, hb, hn, hl, runGitWorktreeAdd_during]
    · simp [createWorktreeFromBase, h, hb, hn, hl, runGitWorktreeAdd_during]

/-- C7: `createWorktreeFromBase` validates repository, base branch and
sanitized branch name in that order, failing with the corresponding message
and zero git subprocess invocations. -/
theorem C7_validation_order :
    ∀ (fs : FSNode) (env : GitEnv) (cwd repoPath n wt base : String)
      (abort : AbortTime),
      ((existsPath fs cwd repoPath && isGitRepo fs cwd repoPath) = false →
        createWorktreeFromBase fs env cwd repoPath n wt base abort =
          ⟨⟨false, some "Repository not found"⟩, [], false⟩) ∧
      ((existsPath fs cwd repoPath && isGitRepo fs cwd repoPath) = true →
        jsTrim base = "" →
        createWorktreeFromBase fs env cwd repoPath n wt base abort =
          ⟨⟨false, some "Base branch is required"⟩, [], false⟩) ∧
      ((existsPath fs cwd repoPath && isGitRepo fs cwd repoPath) = true →
        jsTrim base ≠ "" →
        sanitizeBranchName n = "" →
        createWorktreeFromBase fs env cwd repoPath n wt base abort =
          ⟨⟨false, some "Worktree name is required"⟩, [], false⟩) := by
  intro fs env cwd repoPath n wt base abort
  refine ⟨fun h => ?_, fun h hb => ?_, fun h hb hn => ?_⟩
  · simp [createWorktreeFromBase, h]
  · simp [createWorktreeFromBase, h, hb]
  · simp [createWorktreeFromBase, h, hb, hn]

/-- C8: when the sanitized branch already exists locally,
`createWorktreeFromBase` attaches it — the only calls are the branch probe
and a `worktree add` whose argument vector is exactly
`[worktree, add, <dest>, <branch>]` (no `-b` flag, no upstream
configuration) — and the attach result is the terminal result. -/
theorem C8_attach_existing :
    ∀ (fs : FSNode) (env : GitEnv) (cwd repoPath n wt base : String),
      (existsPath fs cwd repoPath && isGitRepo fs cwd repoPath) = true →
      jsTrim base ≠ "" →
      sanitizeBranchName n ≠ "" →
      (hasLocalBranch fs env cwd (nodeResolve cwd repoPath)
        (sanitizeBranchName n)).1 = true →
      (createWorktreeFromBase fs env cwd repoPath n wt base AbortTime.never =
        ⟨(runGitWorktreeAdd env (nodeResolve cwd repoPath)
            [(if isAbsolutePath wt then wt
              else nodeResolve (nodeDirname (nodeResolve cwd repoPath)) wt),
              sanitizeBranchName n] false false).result,
          (hasLocalBranch fs env cwd (nodeResolve cwd repoPath)
            (sanitizeBranchName n)).2 ++
            [(nodeResolve cwd repoPath,
              ["worktree", "add",
                (if isAbsolutePath wt then wt
                 else nodeResolve (nodeDirname (nodeResolve cwd repoPath)) wt),
                sanitizeBranchName n])],
          false⟩) ∧
      ∀ c ∈ (createWorktreeFromBase fs env cwd repoPath n wt base
          AbortTime.never).calls,
        c.2.head? = some "rev-parse" ∨
          c.2 = ["worktree", "add",
            (if isAbsolutePath wt then wt
             else nodeResolve (nodeDirname (nodeResolve cwd repoPath)) wt),
            sanitizeBranchName n] := by
  intro fs env cwd repoPath n wt base h hb hn hl
  have h1 : createWorktreeFromBase fs env cwd repoPath n wt base AbortTime.never =
      ⟨(runGitWorktreeAdd env (nodeResolve cwd repoPath)
          [(if isAbsolutePath wt then wt
            else nodeResolve (nodeDirname (nodeResolve cwd repoPath)) wt),
            sanitizeBranchName n] false false).result,
        (hasLocalBranch fs env cwd (nodeResolve cwd repoPath)
          (sanitizeBranchName n)).2 ++
          [(nodeResolve cwd repoPath,
            ["worktree", "add",
              (if isAbsolutePath wt then wt
               else nodeResolve (nodeDirname (nodeResolve cwd repoPath)) wt),
              sanitizeBranchName n])],
        false⟩ := by
    simp [createWorktreeFromBase, h, hb, hn, hl, runGitWorktreeAdd_calls,
      runGitWorktreeAdd_killed]
  refine ⟨h1, ?_⟩
  intro c hc
  rw [h1] at hc
  rcases List.mem_append.mp hc with hcl | hcr
  · rcases hasLocalBranch_calls fs env cwd (nodeResolve cwd repoPath)
        (sanitizeBranchName n) with he | he
    · rw [he] at hcl; cases hcl
    · rw [he] at hcl
      rcases List.mem_singleton.mp hcl with rfl
      left; rfl
  · rcases List.mem_singleton.mp hcr with rfl
    right; rfl

/-- Both branches of the upstream-configuration `if` carry the same
result, so the projection is branch-independent. -/
theorem ite_result_proj (c : Prop) [Decidable c] (res : MutationResult)
    (x y : List GitCall) (k : Bool) :
    ((if c then (⟨res, x, k⟩ : MutRun) else ⟨res, y, k⟩).result) = res := by
  split <;> rfl

/-- C9: every `MutationResult` produced by `createWorktree`,
`runGitWorktreeAdd`, `createWorktreeFromBase` and `removeWorktree` carries
an error string exactly when it is a failure. -/
theorem C9_error_iff_failure :
    ∀ (fs : FSNode) (env : GitEnv) (cwd p1 p2 p3 p4 : String)
      (args : List String) (e1 e2 : Bool) (abort : AbortTime),
      ((createWorktree fs env cwd p1 p2 p3).1.error.isSome
          = !(createWorktree fs env cwd p1 p2 p3).1.success) ∧
      ((runGitWorktreeAdd env p1 args e1 e2).result.error.isSome
          = !(runGitWorktreeAdd env p1 args e1 e2).result.success) ∧
      ((createWorktreeFromBase fs env cwd p1 p2 p3 p4 abort).result.error.isSome
          = !(createWorktreeFromBase fs env cwd p1 p2 p3 p4 abort).result.success) ∧
      ((removeWorktree fs env cwd p1 p2).1.error.isSome
          = !(removeWorktree fs env cwd p1 p2).1.success) := by
  intro fs env cwd p1 p2 p3 p4 args e1 e2 abort
  refine ⟨?_, runGitWorktreeAdd_error_iff env p1 args e1 e2, ?_, ?_⟩
  · cases h0 : (existsPath fs cwd p1 && isGitRepo fs cwd p1) with
    | false => simp [createWorktree, h0]
    | true =>
      by_cases h2 : jsTrim p2 = ""
      · simp [createWorktree, h0, h2]
      · cases hl : (hasLocalBranch fs env cwd (nodeResolve cwd p1)
            (jsTrim p2)).1 with
        | true =>
          simp only [createWorktree, h0, h2, hl]
          repeat' split
          all_goals simp
        | false =>
          simp only [createWorktree, h0, h2, hl]
          repeat' split
          all_goals simp
  · cases h0 : (existsPath fs cwd p1 && isGitRepo fs cwd p1) with
    | false => simp [createWorktreeFromBase, h0]
    | true =>
      by_cases h2 : jsTrim p4 = ""
      · simp [createWorktreeFromBase, h0, h2]
      · by_cases h3 : sanitizeBranchName p2 = ""
        · simp [createWorktreeFromBase, h0, h2, h3]
        · by_cases h4 : abort = AbortTime.atStart
          · simp [createWorktreeFromBase, h0, h2, h3, h4]
          · by_cases h5 : abort = AbortTime.afterBranchCheck
            · simp [createWorktreeFromBase, h0, h2, h3, h4, h5]
            · cases hl : (hasLocalBranch fs env cwd (nodeResolve cwd p1)
                  (sanitizeBranchName p2)).1 with
              | true =>
                simp [createWorktreeFromBase, h0, h2, h3, h4, h5, hl]
                exact runGitWorktreeAdd_error_iff env _ _ false _
              | false =>
                simp [createWorktreeFromBase, h0, h2, h3, h4, h5, hl]
                rw [ite_result_proj]
                exact runGitWorktreeAdd_error_iff env _ _ false _
  · rcases hx : env.exec p1 ["worktree", "remove", p2, "--force"] with e | v
    · simp [removeWorktree, hx]
    · simp only [removeWorktree, hx]
      by_cases hex : existsPath fs cwd p2 = true
      · rw [if_pos hex]
        cases ht : env.trash <;> simp [ht]
      · rw [if_neg hex]
        simp

/-- C10: a non-absolute destination worktree path is resolved against the
parent directory of the resolved repository path in both `createWorktree`
and `createWorktreeFromBase` (visible in the issued `worktree add` call);
an absolute destination is used unchanged; concretely, for repository
`/a/b` and destination `x` the destination used is `/a/x` — not `/a/b/x`
(resolution against the repository) and not `/c/x` (resolution against the
working directory `/c`). -/
theorem C10_destination_resolution :
    (∀ (fs : FSNode) (env : GitEnv) (cwd repoPath branch wt : String),
      (existsPath fs cwd repoPath && isGitRepo fs cwd repoPath) = true →
      jsTrim branch ≠ "" →
      (hasLocalBranch fs env cwd (nodeResolve cwd repoPath)
        (jsTrim branch)).1 = true →
      (createWorktree fs env cwd repoPath branch wt).2 =
        (hasLocalBranch fs env cwd (nodeResolve cwd repoPath)
          (jsTrim branch)).2 ++
          [(nodeResolve cwd repoPath,
            ["worktree", "add",
              (if isAbsolutePath wt then wt
               else nodeResolve (nodeDirname (nodeResolve cwd repoPath)) wt),
              jsTrim branch])]) ∧
    (∀ (fs : FSNode) (env : GitEnv) (cwd repoPath n wt base : String),
      (existsPath fs cwd repoPath && isGitRepo fs cwd repoPath) = true →
      jsTrim base ≠ "" →
      sanitizeBranchName n ≠ "" →
      (hasLocalBranch fs env cwd (nodeResolve cwd repoPath)
        (sanitizeBranchName n)).1 = true →
      (createWorktreeFromBase fs env cwd repoPath n wt base
          AbortTime.never).calls =
        (hasLocalBranch fs env cwd (nodeResolve cwd repoPath)
          (sanitizeBranchName n)).2 ++
          [(nodeResolve cwd repoPath,
            ["worktree", "add",
              (if isAbsolutePath wt then wt
               else nodeResolve (nodeDirname (nodeResolve cwd repoPath)) wt),
              sanitizeBranchName n])]) ∧
    ((if isAbsolutePath "x" then "x"
      else nodeResolve (nodeDirname (nodeResolve "/c" "/a/b")) "x") = "/a/x" ∧
      nodeResolve (nodeResolve "/c" "/a/b") "x" = "/a/b/x" ∧
      nodeResolve "/c" "x" = "/c/x" ∧
      (if isAbsolutePath "/z" then "/z"
       else nodeResolve (nodeDirname (nodeResolve "/c" "/a/b")) "/z") = "/z") := by
  refine ⟨fun fs env cwd repoPath branch wt h hb hl => ?_,
    fun fs env cwd repoPath n wt base h hb hn hl => ?_, by decide⟩
  · cases hx : env.exec (nodeResolve cwd repoPath)
        ["worktree", "add",
          (if isAbsolutePath wt then wt
           else nodeResolve (nodeDirname (nodeResolve cwd repoPath)) wt),
          jsTrim branch] <;>
      simp [createWorktree, h, hb, hl, hx]
  · simp [createWorktreeFromBase, h, hb, hn, hl, runGitWorktreeAdd_calls]

/-! ## Concrete fixtures and witnesses for the mutation claims -/

/-- A filesystem with one valid repository at `/repo`. -/
def fs0 : FSNode := FSNode.dir [("repo", FSNode.dir [(".git", gitDirNode)] 0)] 0

/-- A filesystem with one valid repository at `/a/b`. -/
def fsAB : FSNode :=
  FSNode.dir [("a", FSNode.dir
    [("b", FSNode.dir [(".git", gitDirNode)] 0)] 0)] 0

/-- An oracle whose `execFile` calls all succeed. -/
def envOkExec : GitEnv :=
  ⟨fun _ _ => Except.ok "", AddEvent.closes (some 0), [], Except.ok ()⟩

/-- Witness for C6: its hypotheses hold on the concrete repository world
and the cancellation behaviour follows. -/
theorem C6_witness :
    (existsPath fs0 "/" "/repo" && isGitRepo fs0 "/" "/repo") = true ∧
    jsTrim "main" ≠ "" ∧
    sanitizeBranchName "feat" ≠ "" ∧
    ((createWorktreeFromBase fs0 envOkExec "/" "/repo" "feat" "wt" "main"
        AbortTime.atStart = ⟨⟨false, some CANCELLED_ERROR⟩, [], false⟩) ∧
      ((createWorktreeFromBase fs0 envOkExec "/" "/repo" "feat" "wt" "main"
          AbortTime.duringAdd).result = ⟨false, some CANCELLED_ERROR⟩ ∧
        (createWorktreeFromBase fs0 envOkExec "/" "/repo" "feat" "wt" "main"
          AbortTime.duringAdd).killed = true)) :=
  ⟨by decide, by decide, by decide,
    C6_cancellation fs0 envOkExec "/" "/repo" "feat" "wt" "main"
      (by decide) (by decide) (by decide)⟩

/-- Witness for C7: each validation failure exercised concretely. -/
theorem C7_witness :
    ((existsPath fs0 "/" "/missing" && isGitRepo fs0 "/" "/missing") = false ∧
      createWorktreeFromBase fs0 envOkExec "/" "/missing" "b" "wt" "main"
        AbortTime.never = ⟨⟨false, some "Repository not found"⟩, [], false⟩) ∧
    ((existsPath fs0 "/" "/repo" && isGitRepo fs0 "/" "/repo") = true ∧
      jsTrim "  " = "" ∧
      createWorktreeFromBase fs0 envOkExec "/" "/repo" "b" "wt" "  "
        AbortTime.never = ⟨⟨false, some "Base branch is required"⟩, [], false⟩) ∧
    ((existsPath fs0 "/" "/repo" && isGitRepo fs0 "/" "/repo") = true ∧
      jsTrim "main" ≠ "" ∧ sanitizeBranchName " " = "" ∧
      createWorktreeFromBase fs0 envOkExec "/" "/repo" " " "wt" "main"
        AbortTime.never = ⟨⟨false, some "Worktree name is required"⟩, [], false⟩) :=
  ⟨⟨by decide, (C7_validation_order fs0 envOkExec "/" "/missing" "b" "wt" "main"
      AbortTime.never).1 (by decide)⟩,
    ⟨by decide, by decide,
      (C7_validation_order fs0 envOkExec "/" "/repo" "b" "wt" "  "
        AbortTime.never).2.1 (by decide) (by decide)⟩,
    ⟨by decide, by decide, by decide,
      (C7_validation_order fs0 envOkExec "/" "/repo" " " "wt" "main"
        AbortTime.never).2.2 (by decide) (by decide) (by decide)⟩⟩

/-- Witness for C8: the attach path taken concretely. -/
theorem C8_witness :
    (existsPath fs0 "/" "/repo" && isGitRepo fs0 "/" "/repo") = true ∧
    jsTrim "main" ≠ "" ∧
    sanitizeBranchName "feat" ≠ "" ∧
    (hasLocalBranch fs0 envOkExec "/" (nodeResolve "/" "/repo")
      (sanitizeBranchName "feat")).1 = true ∧
    createWorktreeFromBase fs0 envOkExec "/" "/repo" "feat" "wt" "main"
        AbortTime.never =
      ⟨(runGitWorktreeAdd envOkExec (nodeResolve "/" "/repo")
          [(if isAbsolutePath "wt" then "wt"
            else nodeResolve (nodeDirname (nodeResolve "/" "/repo")) "wt"),
            sanitizeBranchName "feat"] false false).result,
        (hasLocalBranch fs0 envOkExec "/" (nodeResolve "/" "/repo")
          (sanitizeBranchName "feat")).2 ++
          [(nodeResolve "/" "/repo",
            ["worktree", "add",
              (if isAbsolutePath "wt" then "wt"
               else nodeResolve (nodeDirname (nodeResolve "/" "/repo")) "wt"),
              sanitizeBranchName "feat"])],
        false⟩ :=
  ⟨by decide, by decide, by decide, by decide,
    (C8_attach_existing fs0 envOkExec "/" "/repo" "feat" "wt" "main"
      (by decide) (by decide) (by decide) (by decide)).1⟩

/-- Witness for C10: the destination-resolution equality exercised on the
repository `/a/b` with working directory `/c` and destination `x`. -/
theorem C10_witness :
    (existsPath fsAB "/c" "/a/b" && isGitRepo fsAB "/c" "/a/b") = true ∧
    jsTrim "feat" ≠ "" ∧
    (hasLocalBranch fsAB envOkExec "/c" (nodeResolve "/c" "/a/b")
      (jsTrim "feat")).1 = true ∧
    (createWorktree fsAB envOkExec "/c" "/a/b" "feat" "x").2 =
      (hasLocalBranch fsAB envOkExec "/c" (nodeResolve "/c" "/a/b")
        (jsTrim "feat")).2 ++
        [(nodeResolve "/c" "/a/b",
          ["worktree", "add",
            (if isAbsolutePath "x" then "x"
             else nodeResolve (nodeDirname (nodeResolve "/c" "/a/b")) "x"),
            jsTrim "feat"])] :=
  ⟨by decide, by decide, by decide,
    C10_destination_resolution.1 fsAB envOkExec "/c" "/a/b" "feat" "x"
      (by decide) (by decide) (by decide)⟩

end WorktreeManager
